import Mathlib

/-!
Verification of the mirror-resolution and integrity-verification engine of
SuperISOUpdater: the `Version` comparison primitive (modules/Version.py),
the mirror manager's snapshot-iterate-and-remove driver and download
fail-over (modules/mirrors/GenericMirrorManager.py), the per-mirror
download-and-verify step and version discovery (modules/mirrors/GenericMirror.py),
and the atomic download helper (modules/utils.py).

Machine integers do not occur (Python ints are unbounded); version tokens are
`Nat` (digit runs) or `String` (letter runs). Network, filesystem and regex
effects are passed explicitly: the disk is an `Option` of the file content,
regex-extraction results are inputs, and Python exceptions are `Except`.
-/

namespace SISOU

/-- A version token as produced by `Version._parse_component`:
a maximal digit run parsed as an integer, or a maximal letter run. -/
inductive Token where
  | int (n : Nat)
  | str (s : String)
deriving DecidableEq, Repr

/-- Embeds Python `int(token)` on a digit run (base-10 value; leading zeros
are insignificant). -/
def digitsToNat (cs : List Char) : Nat :=
  cs.foldl (fun n c => 10 * n + (c.toNat - 48)) 0

/-- A maximal run of characters, as cut out by `re.compile(r"\d+|[A-Za-z]+")`:
a digit run, an ASCII-letter run, or a single skipped character. -/
inductive Chunk where
  | dig (cs : List Char)
  | alp (cs : List Char)
  | sep
deriving DecidableEq, Repr

/-- Groups adjacent digits (resp. ASCII letters) into maximal runs; every
other character becomes a `sep` marker. -/
def chunks : List Char → List Chunk
  | [] => []
  | c :: cs =>
    let rest := chunks cs
    if c.isDigit then
      match rest with
      | Chunk.dig ds :: rest' => Chunk.dig (c :: ds) :: rest'
      | _ => Chunk.dig [c] :: rest
    else if c.isAlpha then
      match rest with
      | Chunk.alp ds :: rest' => Chunk.alp (c :: ds) :: rest'
      | _ => Chunk.alp [c] :: rest
    else
      Chunk.sep :: rest

/-- Embeds `Version._token_regex.findall`, the left-to-right scan of
`re.compile(r"\d+|[A-Za-z]+")`: each maximal digit run becomes an integer
token (`token.isdigit()` branch of `_parse_component`), each maximal
ASCII-letter run a string token, and all other characters are skipped. -/
def tokenize (l : List Char) : List Token :=
  (chunks l).filterMap fun
    | Chunk.dig ds => some (Token.int (digitsToNat ds))
    | Chunk.alp ds => some (Token.str (String.mk ds))
    | Chunk.sep => none

/-- Embeds `Version._parse_component`. -/
def parse_component (component : String) : List Token :=
  tokenize component.data

/-- Embeds Python `str.split(sep)` for a non-empty separator: cuts at every
(non-overlapping, leftmost) occurrence of `sep`. The `fuel` argument is only
a structural-recursion bound; it is always called with the input length. -/
def pySplit (sep : List Char) : Nat → List Char → List Char → List (List Char)
  | _, [], acc => [acc.reverse]
  | 0, rest, acc => [acc.reverse ++ rest]
  | fuel + 1, c :: cs, acc =>
    if sep.isPrefixOf (c :: cs) then
      acc.reverse :: pySplit sep fuel ((c :: cs).drop sep.length) []
    else
      pySplit sep fuel cs (c :: acc)

/-- Embeds the component split in `Version.__init__`:
`version_string.split(separator) if separator else list(version_string)`. -/
def versionComponents (version_string separator : String) : List String :=
  if separator = "" then version_string.data.map (fun c => String.mk [c])
  else
    (pySplit separator.data version_string.data.length version_string.data []).map
      String.mk

/-- The parsed representation of a `Version`: its `_parsed_components`. -/
def parseVersion (version_string separator : String) : List (List Token) :=
  (versionComponents version_string separator).map parse_component

/-- Embeds `Version.__init__`: an empty version string raises
`ValueError("The version string cannot be empty.")`. -/
def mkVersion (version_string separator : String) :
    Option (List (List Token)) :=
  if version_string = "" then none
  else some (parseVersion version_string separator)

/-- Python string comparison, `(a > b) - (a < b)` on `str`: lexicographic by
code point, a strict prefix ordering before the longer string. -/
def pyStrCmp : List Char → List Char → Int
  | [], [] => 0
  | [], _ :: _ => -1
  | _ :: _, [] => 1
  | a :: as, b :: bs =>
    if a.toNat < b.toNat then -1
    else if b.toNat < a.toNat then 1
    else pyStrCmp as bs

/-- Python `(a > b) - (a < b)` on `int` (here both tokens are `Nat`,
as digit runs parse to non-negative integers). -/
def pyNatCmp (a b : Nat) : Int :=
  (if a > b then 1 else 0) - (if a < b then 1 else 0)

/-- Embeds `Version._cmp_tokens`: two integers compare numerically, an
integer is smaller than a string, two strings compare as Python strings. -/
def cmp_tokens : Token → Token → Int
  | .int a, .int b => pyNatCmp a b
  | .int _, .str _ => -1
  | .str _, .int _ => 1
  | .str a, .str b => pyStrCmp a.data b.data

/-- The sequence comparison shared by `Version._compare_parsed` and
`Version._compare`: walk the `zip` of the two sequences returning the first
non-zero element comparison, otherwise compare lengths,
`(len(l) > len(r)) - (len(l) < len(r))`. -/
def pySeqCmp (f : α → α → Int) : List α → List α → Int
  | [], [] => 0
  | [], _ :: _ => -1
  | _ :: _, [] => 1
  | a :: as, b :: bs =>
    let c := f a b
    if c = 0 then pySeqCmp f as bs else c

/-- Embeds `Version._compare_parsed` on two components' token sequences. -/
def compare_parsed (l r : List Token) : Int :=
  pySeqCmp cmp_tokens l r

/-- Embeds `Version._compare` on the parsed component lists. -/
def vcompare (l r : List (List Token)) : Int :=
  pySeqCmp compare_parsed l r

/-- `Version.__eq__` (`self._compare(other) == 0`) as a Bool. -/
def veqb (l r : List (List Token)) : Bool :=
  vcompare l r == 0

/-! ### Laws of the Python-style three-way comparators -/

/-- The laws shared by every comparator in `Version`: values in `{-1,0,1}`,
zero exactly on equal arguments, antisymmetric under flipping, and
transitive on the strict part. -/
structure IsPyCmp (f : α → α → Int) : Prop where
  range : ∀ a b, f a b = -1 ∨ f a b = 0 ∨ f a b = 1
  eq_iff : ∀ a b, f a b = 0 ↔ a = b
  flip : ∀ a b, f b a = - f a b
  trans : ∀ a b c, f a b = -1 → f b c = -1 → f a c = -1

/-! ### The mirror manager (GenericMirrorManager.py) and per-mirror steps -/

/-- The parsed representation of a `Version` object. -/
abbrev PyVersion := List (List Token)

/-- One mirror as the manager sees it after `initialize()`: `version` is the
parsed `Version` the mirror reports, `content` stands for the bytes served by
its `download_link`, `checksumOk` for the outcome of
`GenericMirror._checksum_file` on those bytes (exceptions folded to `False`
by the callers' `except` blocks), `sigOk` likewise for `_signature_check`,
`hasSignature` for `_has_signature`, and `speed` for the probed transfer
speed (only its ordering matters). `id` distinguishes mirror objects, since
Python's `list.remove` works by object identity. -/
structure Mirror where
  id : Nat
  version : PyVersion
  content : Nat
  checksumOk : Bool
  hasSignature : Bool
  sigOk : Bool
  speed : Nat
deriving DecidableEq, Repr

/-- Python exceptions crossing the manager boundary: the `RuntimeError` for a
falsy result under `check_bool_output`, `IntegrityCheckError`, and anything
else. -/
inductive PyErr where
  | runtimeNonTrue
  | integrityCheck (msg : String)
  | other (msg : String)
deriving DecidableEq, Repr

deriving instance DecidableEq for Except

/-- Embeds Python `list.remove`: deletes the first occurrence. (The
`ValueError` on removing an absent element cannot occur at the call site in
`try_for_all_mirrors`, where the removed mirror is always still live.) -/
def list_remove {α : Type} [DecidableEq α] : List α → α → List α
  | [], _ => []
  | a :: as, b => if a = b then as else a :: list_remove as b

/-- Embeds the loop of `GenericMirrorManager.try_for_all_mirrors`: iterate
the snapshot `mirror_copy`; each call threads external state `s` (e.g. the
file on disk) and yields the Python outcome — an exception, or a result
whose truthiness is a `Bool`. A raising call (or, with `check_bool_output`,
a falsy result, turned into a `RuntimeError` inside the `try`) removes the
mirror from the live list and records it in `failed_mirrors`; with
`stop_after_success`, the loop breaks after the first non-raising call. -/
def try_loop {σ : Type} (func : Mirror → σ → σ × Except PyErr Bool)
    (check_bool_output stop_after_success : Bool) :
    List Mirror → List Mirror → List (Mirror × PyErr) → σ →
      List Mirror × List (Mirror × PyErr) × σ
  | [], live, failed, s => (live, failed, s)
  | m :: rest, live, failed, s =>
    match func m s with
    | (s', Except.error e) =>
      try_loop func check_bool_output stop_after_success rest
        (list_remove live m) (failed ++ [(m, e)]) s'
    | (s', Except.ok b) =>
      if check_bool_output && !b then
        try_loop func check_bool_output stop_after_success rest
          (list_remove live m) (failed ++ [(m, PyErr.runtimeNonTrue)]) s'
      else if stop_after_success then (live, failed, s')
      else try_loop func check_bool_output stop_after_success rest live failed s'

/-- Embeds `GenericMirrorManager.try_for_all_mirrors`: runs the loop on a
snapshot of the mirror list and then, if the live list has become empty,
raises `NoMirrorsError` carrying every recorded `(mirror, error)` pair (the
message enumerates `f"{m.url}: {e}"` over exactly these pairs). -/
def try_for_all_mirrors {σ : Type} (func : Mirror → σ → σ × Except PyErr Bool)
    (check_bool_output stop_after_success : Bool) (mirrors : List Mirror)
    (s : σ) : σ × Except (List (Mirror × PyErr)) (List Mirror) :=
  let r := try_loop func check_bool_output stop_after_success mirrors mirrors [] s
  (r.2.2, if r.1 = [] then Except.error r.2.1 else Except.ok r.1)

/-- Lifts an effect-free per-mirror operation into the stateful shape. -/
def pureFunc (f : Mirror → Except PyErr Bool) :
    Mirror → Unit → Unit × Except PyErr Bool :=
  fun m s => (s, f m)

/-- Whether a call of `func` on one mirror counts as a success inside
`try_for_all_mirrors`: it does not raise, and, when `check_bool_output` is
on, its result is truthy. -/
def succeedsB (f : Mirror → Except PyErr Bool) (check_bool_output : Bool)
    (m : Mirror) : Bool :=
  match f m with
  | Except.error _ => false
  | Except.ok b => !(check_bool_output && !b)

/-- The error recorded in `failed_mirrors` for a failing call: the raised
exception, or the `RuntimeError` manufactured for a falsy result. -/
def errOf (f : Mirror → Except PyErr Bool) (m : Mirror) : PyErr :=
  match f m with
  | Except.error e => e
  | Except.ok _ => PyErr.runtimeNonTrue

/-- Embeds `GenericMirrorManager._initialize_all_mirrors`:
`try_for_all_mirrors(lambda m: m.initialize())`, where `initialize()` either
raises or returns `None` (falsy — but `check_bool_output` is off). -/
def initialize_all_mirrors (init : Mirror → Except PyErr Unit)
    (mirrors : List Mirror) :
    Unit × Except (List (Mirror × PyErr)) (List Mirror) :=
  try_for_all_mirrors (pureFunc (fun m => (init m).map (fun _ => false)))
    false false mirrors ()

/-- One step of keeping a running maximum `Version`: replace the current
value only when the new item compares strictly greater (`Version.__gt__`). -/
def maxStep (acc x : PyVersion) : PyVersion :=
  if vcompare x acc > 0 then x else acc

/-- Embeds Python `max` over a non-empty sequence of `Version`s. -/
def pymax (v : PyVersion) (vs : List PyVersion) : PyVersion :=
  vs.foldl maxStep v

/-- Embeds `GenericMirrorManager._ensure_latest_version`: computes
`max(mirror.version for mirror in self._mirrors)` (a `ValueError` on an
empty list, modelled as `none`) and keeps exactly the mirrors whose version
compares equal (`Version.__eq__`) to it, via `try_for_all_mirrors` with
`check_bool_output=True`. -/
def ensure_latest_version (mirrors : List Mirror) :
    Option (Except (List (Mirror × PyErr)) (List Mirror)) :=
  match mirrors with
  | [] => none
  | m :: rest =>
    let latest := pymax m.version (rest.map Mirror.version)
    some (try_for_all_mirrors
        (pureFunc (fun mm => Except.ok (veqb mm.version latest)))
        true false (m :: rest) ()).2

/-- Embeds `GenericMirror.download_and_verify` acting on the file at the
final install path (`disk`): downloads the mirror's bytes, folds the
checksum and signature outcomes (exceptions caught and turned into `False`),
and on a failed signature (when signatures are enabled) or failed checksum
unlinks the file before raising `IntegrityCheckError`. -/
def download_and_verify (m : Mirror) (_disk : Option Nat) :
    Option Nat × Except PyErr Bool :=
  let downloaded : Option Nat := some m.content
  let checksum_success := m.checksumOk
  if m.hasSignature && !m.sigOk then
    (none, Except.error (PyErr.integrityCheck "Integrity check failed! (Signature)"))
  else if !checksum_success then
    (none, Except.error (PyErr.integrityCheck "Integrity check failed! (Checksum)"))
  else
    (downloaded, Except.ok true)

/-- Embeds `GenericMirrorManager._download_and_checksum`. The body calls
`mirror.checksum_file(file)`, but no mirror class defines `checksum_file`
(`GenericMirror` defines only `_checksum_file`), so the attribute lookup
raises `AttributeError` inside the `try`, the `except Exception` branch sets
`checksum_success = False`, the downloaded file is unlinked, and
`IntegrityCheckError` is raised — on every mirror, unconditionally. -/
def download_and_checksum (m : Mirror) (_disk : Option Nat) :
    Option Nat × Except PyErr Bool :=
  let downloaded : Option Nat := some m.content
  let checksum_success := false
  if checksum_success then (downloaded, Except.ok checksum_success)
  else (none, Except.error (PyErr.integrityCheck "Integrity check failed!"))

/-- Modelled from the spec (§4.3 `attemptDownload`, §8): the manager's
download step as specified, with the checksum call reaching the existing
`GenericMirror._checksum_file` instead of the missing `checksum_file`. -/
def download_and_checksum_intended (m : Mirror) (_disk : Option Nat) :
    Option Nat × Except PyErr Bool :=
  let downloaded : Option Nat := some m.content
  let checksum_success := m.checksumOk
  if checksum_success then (downloaded, Except.ok checksum_success)
  else (none, Except.error (PyErr.integrityCheck "Integrity check failed!"))

/-- Embeds `GenericMirrorManager.attempt_download`. -/
def attempt_download (mirrors : List Mirror) (disk : Option Nat) :
    Option Nat × Except (List (Mirror × PyErr)) (List Mirror) :=
  try_for_all_mirrors download_and_checksum true true mirrors disk

/-- `attempt_download` over the spec-modelled download step. -/
def attempt_download_intended (mirrors : List Mirror) (disk : Option Nat) :
    Option Nat × Except (List (Mirror × PyErr)) (List Mirror) :=
  try_for_all_mirrors download_and_checksum_intended true true mirrors disk

/-- Embeds `GenericMirror._determine_version`. Regex evaluation is external:
`candidates` holds, for each URL in `_urls_with_file_regex()`, the outcome of
`_determine_version_from_search` — the captured version string, or `none`
when the version regex does not match. The sentinel `latest_version` starts
as `Version("0")`; a final value comparing equal to it raises
`ValueError` (modelled `none`). -/
def determine_version (candidates : List (Option String))
    (separator : String) : Option PyVersion :=
  let zero := parseVersion "0" "."
  let latest := candidates.foldl
    (fun latest c =>
      match c with
      | none => latest
      | some s => maxStep latest (parseVersion s separator))
    zero
  if veqb latest zero then none else some latest

/-! ### utils.download_file -/

/-- The two files `utils.download_file` touches: the destination
`local_file` and the sibling `part_file`. -/
structure Disk where
  dest : Option (List Nat)
  part : Option (List Nat)
deriving DecidableEq, Repr

/-- Index of the last dot in a name, if any. -/
def lastDotIdx (cs : List Char) : Option Nat :=
  match cs.reverse.findIdx? (fun c => c = '.') with
  | none => none
  | some j => some (cs.length - 1 - j)

/-- Embeds `pathlib.PurePath.with_suffix` on a file name: the suffix (from
the last dot, when that dot is neither leading nor trailing) is replaced,
otherwise the new suffix is appended. -/
def with_suffix (name new_suffix : String) : String :=
  let cs := name.data
  match lastDotIdx cs with
  | some i =>
    if 0 < i ∧ i < cs.length - 1 then String.mk (cs.take i) ++ new_suffix
    else name ++ new_suffix
  | none => name ++ new_suffix

/-- Embeds `utils.download_file`: streams the response body into
`local_file.with_suffix(".part")`; a transport error or `KeyboardInterrupt`
deletes the partial file and re-raises; only a completed download renames
the part file onto `local_file`. `received` is what the connection yielded
before completing (`complete = true`) or failing. -/
def download_file (received : List Nat) (complete : Bool) (d : Disk) :
    Disk × Except PyErr Unit :=
  let streamed : Disk := { d with part := some received }
  if complete then
    ({ dest := some received, part := none }, Except.ok ())
  else
    ({ streamed with part := none },
      Except.error (PyErr.other "requests.exceptions.RequestException"))



/-- Embeds `Version.__str__`. `self.components` holds the raw component
strings, so `for tok in comp` iterates the characters of each component; a
character never satisfies `isinstance(tok, int)`, hence the zero-pad format
specifier in the comprehension is dead code and every token renders via
`str(tok)` — the `zero_pad` argument has no effect on the output. -/
def versionStr (version_string separator : String) (_zero_pad : Nat) :
    String :=
  String.intercalate separator
    ((versionComponents version_string separator).map (fun comp =>
      String.join (comp.data.map (fun tok => String.mk [tok]))))

/-- Python `f"{tok:0{width}d}"` for a non-negative integer: left-pad the
decimal digits with zeros to `width`. -/
def padNat (width n : Nat) : String :=
  let s := toString n
  String.mk (List.replicate (width - s.length) '0') ++ s

/-- Modelled from the spec (§4.1 `render()` and the `zero_pad` docstring of
`Version.__init__`, which the code's `__str__` fails to implement): joins
components with the separator; when zero-pad > 0 every integer token renders
left-padded with zeros to that width, string tokens render as-is. -/
def versionStrSpec (version_string separator : String) (zero_pad : Nat) :
    String :=
  String.intercalate separator
    ((versionComponents version_string separator).map (fun comp =>
      String.join ((parse_component comp).map (fun tok =>
        match tok with
        | Token.int n => if 0 < zero_pad then padNat zero_pad n else toString n
        | Token.str s => s))))

/-- Concrete mirrors for witnesses: versions 1.0, 1.2, 1.2. -/
def exMirrorA : Mirror :=
  ⟨0, parseVersion "1.0" ".", 10, true, false, true, 1⟩

def exMirrorB : Mirror :=
  ⟨1, parseVersion "1.2" ".", 11, true, false, true, 5⟩

def exMirrorC : Mirror :=
  ⟨2, parseVersion "1.2" ".", 12, true, false, true, 3⟩

/-- Concrete mirrors for the fail-over scenario: speeds slow < fast <
fastest, all reporting the same version; `fastest` fails its checksum, the
other two pass. -/
def exSlow : Mirror :=
  ⟨0, parseVersion "1.0" ".", 100, true, false, true, 1⟩

def exFast : Mirror :=
  ⟨1, parseVersion "1.0" ".", 101, true, false, true, 5⟩

def exFastest : Mirror :=
  ⟨2, parseVersion "1.0" ".", 102, false, false, true, 9⟩

/-! ### Proofs -/

theorem isPyCmp_pyNatCmp : IsPyCmp pyNatCmp where
  range a b := by unfold pyNatCmp; split <;> split <;> omega
  eq_iff a b := by unfold pyNatCmp; split <;> split <;> omega
  flip a b := by unfold pyNatCmp; split <;> split <;> omega
  trans a b c h1 h2 := by
    unfold pyNatCmp at *
    split at h1 <;> split at h1 <;> split <;> split <;> omega

theorem char_toNat_inj {a b : Char} (h : a.toNat = b.toNat) : a = b :=
  Char.ext (UInt32.ext h)

theorem isPyCmp_pyStrCmp : IsPyCmp pyStrCmp where
  range a b := by
    induction a generalizing b with
    | nil => cases b <;> simp [pyStrCmp]
    | cons x xs ih =>
      cases b with
      | nil => simp [pyStrCmp]
      | cons y ys =>
        simp only [pyStrCmp]
        split
        · simp
        · split
          · simp
          · exact ih ys
  eq_iff a b := by
    induction a generalizing b with
    | nil => cases b <;> simp [pyStrCmp]
    | cons x xs ih =>
      cases b with
      | nil => simp [pyStrCmp]
      | cons y ys =>
        simp only [pyStrCmp]
        split
        · rename_i h
          constructor
          · intro h0; omega
          · intro heq; cases heq; omega
        · split
          · rename_i h h'
            constructor
            · intro h0; omega
            · intro heq; cases heq; omega
          · rename_i h h'
            have hxy : x = y := char_toNat_inj (by omega)
            subst hxy
            rw [ih ys]
            constructor
            · intro h0; rw [h0]
            · intro heq; cases heq; rfl
  flip a b := by
    induction a generalizing b with
    | nil => cases b <;> simp [pyStrCmp]
    | cons x xs ih =>
      cases b with
      | nil => simp [pyStrCmp]
      | cons y ys =>
        simp only [pyStrCmp]
        rcases Nat.lt_trichotomy x.toNat y.toNat with h | h | h
        · have h2 : ¬ y.toNat < x.toNat := by omega
          simp [h, h2]
        · have h1 : ¬ x.toNat < y.toNat := by omega
          have h2 : ¬ y.toNat < x.toNat := by omega
          simp only [if_neg h1, if_neg h2]
          exact ih ys
        · have h1 : ¬ x.toNat < y.toNat := by omega
          simp [h, h1]
  trans a b c h1 h2 := by
    induction a generalizing b c with
    | nil =>
      cases b with
      | nil => exact absurd h1 (by simp [pyStrCmp])
      | cons y ys =>
        cases c with
        | nil => exact absurd h2 (by simp [pyStrCmp])
        | cons z zs => simp [pyStrCmp]
    | cons x xs ih =>
      cases b with
      | nil => exact absurd h1 (by simp [pyStrCmp])
      | cons y ys =>
        cases c with
        | nil => exact absurd h2 (by simp [pyStrCmp])
        | cons z zs =>
          simp only [pyStrCmp] at *
          split at h1
          · split
            · rfl
            · split
              · split at h2 <;> [omega; (split at h2 <;> omega)]
              · split at h2 <;> [omega; (split at h2 <;> omega)]
          · split at h1
            · omega
            · split at h2
              · split <;> [rfl; (split <;> omega)]
              · split at h2
                · omega
                · split
                  · rfl
                  · split
                    · omega
                    · exact ih ys zs h1 h2

theorem isPyCmp_cmp_tokens : IsPyCmp cmp_tokens where
  range a b := by
    cases a <;> cases b <;> simp [cmp_tokens]
    · exact isPyCmp_pyNatCmp.range _ _
    · exact isPyCmp_pyStrCmp.range _ _
  eq_iff a b := by
    cases a <;> cases b <;> simp [cmp_tokens]
    · exact isPyCmp_pyNatCmp.eq_iff _ _
    · rename_i s t
      rw [isPyCmp_pyStrCmp.eq_iff]
      constructor
      · intro h; exact String.ext h
      · rintro rfl; rfl
  flip a b := by
    cases a <;> cases b <;> simp [cmp_tokens]
    · exact isPyCmp_pyNatCmp.flip _ _
    · exact isPyCmp_pyStrCmp.flip _ _
  trans a b c h1 h2 := by
    cases a <;> cases b <;> cases c <;>
      simp [cmp_tokens] at *
    · exact isPyCmp_pyNatCmp.trans _ _ _ h1 h2
    · exact isPyCmp_pyStrCmp.trans _ _ _ h1 h2
theorem isPyCmp_pySeqCmp {f : α → α → Int} (hf : IsPyCmp f) :
    IsPyCmp (pySeqCmp f) where
  range a b := by
    induction a generalizing b with
    | nil => cases b <;> simp [pySeqCmp]
    | cons x xs ih =>
      cases b with
      | nil => simp [pySeqCmp]
      | cons y ys =>
        simp only [pySeqCmp]
        split
        · exact ih ys
        · rcases hf.range x y with h | h | h <;> simp_all
  eq_iff a b := by
    induction a generalizing b with
    | nil => cases b <;> simp [pySeqCmp]
    | cons x xs ih =>
      cases b with
      | nil => simp [pySeqCmp]
      | cons y ys =>
        simp only [pySeqCmp]
        split
        · rename_i h0
          have hxy : x = y := (hf.eq_iff x y).mp h0
          subst hxy
          rw [ih ys]
          constructor
          · intro h; rw [h]
          · intro h; cases h; rfl
        · rename_i h0
          constructor
          · intro h; exact absurd h h0
          · intro h; cases h; exact absurd ((hf.eq_iff x x).mpr rfl) h0
  flip a b := by
    induction a generalizing b with
    | nil => cases b <;> simp [pySeqCmp]
    | cons x xs ih =>
      cases b with
      | nil => simp [pySeqCmp]
      | cons y ys =>
        simp only [pySeqCmp]
        rw [hf.flip x y]
        by_cases h : f x y = 0
        · simp only [h, neg_zero, if_pos rfl]
          exact ih ys
        · rw [if_neg (by simpa using h), if_neg h]
  trans a b c h1 h2 := by
    induction a generalizing b c with
    | nil =>
      cases b with
      | nil => simp [pySeqCmp] at h1
      | cons y ys =>
        cases c with
        | nil => simp [pySeqCmp] at h2
        | cons z zs => simp [pySeqCmp]
    | cons x xs ih =>
      cases b with
      | nil => simp [pySeqCmp] at h1
      | cons y ys =>
        cases c with
        | nil => simp [pySeqCmp] at h2
        | cons z zs =>
          simp only [pySeqCmp] at h1 h2 ⊢
          by_cases hxy : f x y = 0
          · have hxyeq : x = y := (hf.eq_iff x y).mp hxy
            subst hxyeq
            rw [if_pos hxy] at h1
            by_cases hyz : f x z = 0
            · rw [if_pos hyz] at h2 ⊢
              exact ih ys zs h1 h2
            · rw [if_neg hyz] at h2 ⊢
              exact h2
          · rw [if_neg hxy] at h1
            by_cases hyz : f y z = 0
            · have hyzeq : y = z := (hf.eq_iff y z).mp hyz
              subst hyzeq
              rw [if_neg hxy]
              exact h1
            · rw [if_neg hyz] at h2
              have hxz : f x z = -1 := hf.trans x y z h1 h2
              rw [if_neg (by rw [hxz]; omega)]
              exact hxz

theorem isPyCmp_compare_parsed : IsPyCmp compare_parsed :=
  isPyCmp_pySeqCmp isPyCmp_cmp_tokens

theorem isPyCmp_vcompare : IsPyCmp vcompare :=
  isPyCmp_pySeqCmp isPyCmp_compare_parsed

theorem IsPyCmp.rfl_zero {f : α → α → Int} (hf : IsPyCmp f) (a : α) :
    f a a = 0 :=
  (hf.eq_iff a a).mpr rfl

theorem IsPyCmp.lt_flip {f : α → α → Int} (hf : IsPyCmp f) {a b : α}
    (h : f a b = -1) : f b a = 1 := by
  rw [hf.flip a b, h]; rfl

theorem IsPyCmp.gt_flip {f : α → α → Int} (hf : IsPyCmp f) {a b : α}
    (h : f a b = 1) : f b a = -1 := by
  rw [hf.flip a b, h]

theorem IsPyCmp.le_trans {f : α → α → Int} (hf : IsPyCmp f) {a b c : α}
    (h1 : f a b ≤ 0) (h2 : f b c ≤ 0) : f a c ≤ 0 := by
  rcases hf.range a b with ha | ha | ha
  · rcases hf.range b c with hb | hb | hb
    · rw [hf.trans a b c ha hb]; omega
    · have hbc : b = c := (hf.eq_iff b c).mp hb
      subst hbc; rw [ha]; omega
    · rw [hb] at h2; omega
  · have hab : a = b := (hf.eq_iff a b).mp ha
    subst hab; exact h2
  · rw [ha] at h1; omega

theorem IsPyCmp.lt_of_lt_of_le {f : α → α → Int} (hf : IsPyCmp f) {a b c : α}
    (h1 : f a b = -1) (h2 : f b c ≤ 0) : f a c = -1 := by
  rcases hf.range b c with hb | hb | hb
  · exact hf.trans a b c h1 hb
  · have hbc : b = c := (hf.eq_iff b c).mp hb
    subst hbc; exact h1
  · rw [hb] at h2; omega

theorem IsPyCmp.lt_of_le_of_lt {f : α → α → Int} (hf : IsPyCmp f) {a b c : α}
    (h1 : f a b ≤ 0) (h2 : f b c = -1) : f a c = -1 := by
  rcases hf.range a b with ha | ha | ha
  · exact hf.trans a b c ha h2
  · have hab : a = b := (hf.eq_iff a b).mp ha
    subst hab; exact h2
  · rw [ha] at h1; omega

/-- A strict prefix compares as smaller: the zipped walk sees only equal
pairs, and the trailing length comparison decides. -/
theorem pySeqCmp_self_append {f : α → α → Int} (hf : IsPyCmp f) :
    ∀ (xs ys : List α), ys ≠ [] → pySeqCmp f xs (xs ++ ys) = -1 := by
  intro xs
  induction xs with
  | nil =>
    intro ys hys
    cases ys with
    | nil => exact absurd rfl hys
    | cons z zs => simp [pySeqCmp]
  | cons x xs ih =>
    intro ys hys
    simp only [List.cons_append, pySeqCmp]
    rw [if_pos (hf.rfl_zero x)]
    exact ih ys hys

/-! ### Behaviour of the snapshot-iterate-and-remove loop -/

theorem list_remove_append_cons {α : Type} [DecidableEq α] (keep : List α)
    (m : α) (rest : List α) (hm : m ∉ keep) :
    list_remove (keep ++ m :: rest) m = keep ++ rest := by
  induction keep with
  | nil => simp [list_remove]
  | cons k ks ih =>
    have hk : ¬ k = m := by
      intro h
      exact hm (h ▸ List.mem_cons_self k ks)
    have hm' : m ∉ ks := fun h => hm (List.mem_cons_of_mem _ h)
    simp only [List.cons_append, list_remove, if_neg hk, List.append_eq,
      ih hm']

/-- Removal-and-recording without early stop: starting from a live list
`keep ++ snap` and iterating the snapshot `snap`, failing mirrors are
removed from the live list and recorded, in order, with their errors. -/
theorem try_loop_pure_no_stop (f : Mirror → Except PyErr Bool) (cb : Bool) :
    ∀ (snap keep : List Mirror) (failed : List (Mirror × PyErr)),
      (keep ++ snap).Nodup →
      try_loop (pureFunc f) cb false snap (keep ++ snap) failed () =
        (keep ++ snap.filter (succeedsB f cb),
          failed ++ (snap.filter (fun m => !succeedsB f cb m)).map
            (fun m => (m, errOf f m)),
          ()) := by
  intro snap
  induction snap with
  | nil =>
    intro keep failed _
    simp [try_loop]
  | cons m rest ih =>
    intro keep failed hnd
    have hm_keep : m ∉ keep := by
      rw [List.nodup_append] at hnd
      intro hmem
      exact hnd.2.2 hmem (List.mem_cons_self m rest)
    have hnd_skip : (keep ++ rest).Nodup :=
      List.Nodup.sublist
        (List.Sublist.append_left (List.sublist_cons_self m rest) keep) hnd
    have hnd_keep : ((keep ++ [m]) ++ rest).Nodup := by
      simpa [List.append_assoc] using hnd
    cases hf : f m with
    | error e =>
      have hsucc : succeedsB f cb m = false := by simp [succeedsB, hf]
      have herr : errOf f m = e := by simp [errOf, hf]
      simp only [try_loop, pureFunc, hf,
        list_remove_append_cons keep m rest hm_keep]
      rw [ih keep (failed ++ [(m, e)]) hnd_skip]
      simp [hsucc, herr, List.filter]
    | ok b =>
      cases hcb : cb && !b with
      | true =>
        have hsucc : succeedsB f cb m = false := by
          simp [succeedsB, hf, hcb]
        have herr : errOf f m = PyErr.runtimeNonTrue := by simp [errOf, hf]
        simp only [try_loop, pureFunc, hf, hcb, if_pos rfl,
          list_remove_append_cons keep m rest hm_keep]
        rw [ih keep (failed ++ [(m, PyErr.runtimeNonTrue)]) hnd_skip]
        simp [hsucc, herr, List.filter]
      | false =>
        have hsucc : succeedsB f cb m = true := by
          simp [succeedsB, hf]
          revert hcb
          cases cb <;> cases b <;> simp
        simp only [try_loop, pureFunc, hf, hcb, Bool.false_eq_true, if_false]
        have : keep ++ m :: rest = (keep ++ [m]) ++ rest := by
          simp [List.append_assoc]
        rw [this, ih (keep ++ [m]) failed hnd_keep]
        simp [hsucc, List.filter, List.append_assoc]

/-- With `stop_after_success`: all of `pre` fail and are removed and
recorded; the first succeeding mirror stops the iteration, leaving the
mirrors after it untouched and unexamined. -/
theorem try_loop_pure_stop (f : Mirror → Except PyErr Bool) (cb : Bool) :
    ∀ (pre : List Mirror) (m : Mirror) (post keep : List Mirror)
      (failed : List (Mirror × PyErr)),
      (keep ++ (pre ++ m :: post)).Nodup →
      (∀ x ∈ pre, succeedsB f cb x = false) →
      succeedsB f cb m = true →
      try_loop (pureFunc f) cb true (pre ++ m :: post)
          (keep ++ (pre ++ m :: post)) failed () =
        (keep ++ m :: post,
          failed ++ pre.map (fun x => (x, errOf f x)), ()) := by
  intro pre
  induction pre with
  | nil =>
    intro m post keep failed _ _ hm
    simp only [List.nil_append]
    cases hf : f m with
    | error e => simp [succeedsB, hf] at hm
    | ok b =>
      have hcb : (cb && !b) = false := by
        simp [succeedsB, hf] at hm
        revert hm
        cases cb <;> cases b <;> simp
      simp [try_loop, pureFunc, hf, hcb]
  | cons p pre' ih =>
    intro m post keep failed hnd hpre hm
    have hp_keep : p ∉ keep := by
      rw [List.nodup_append] at hnd
      intro hmem
      exact hnd.2.2 hmem (List.mem_cons_self p (pre' ++ m :: post))
    have hnd' : (keep ++ (pre' ++ m :: post)).Nodup :=
      List.Nodup.sublist
        (List.Sublist.append_left
          (List.sublist_cons_self p (pre' ++ m :: post)) keep) hnd
    have hremove := list_remove_append_cons keep p (pre' ++ m :: post) hp_keep
    have hpfail : succeedsB f cb p = false := hpre p (List.mem_cons_self _ _)
    have hrest : ∀ x ∈ pre', succeedsB f cb x = false := fun x hx =>
      hpre x (List.mem_cons_of_mem _ hx)
    cases hf : f p with
    | error e =>
      have herr : errOf f p = e := by simp [errOf, hf]
      simp only [List.cons_append, try_loop, pureFunc, hf, List.append_eq,
        hremove]
      rw [ih m post keep (failed ++ [(p, e)]) hnd' hrest hm]
      simp [herr, List.append_assoc]
    | ok b =>
      have hcb : (cb && !b) = true := by
        simp [succeedsB, hf] at hpfail
        revert hpfail
        cases cb <;> cases b <;> simp
      have herr : errOf f p = PyErr.runtimeNonTrue := by simp [errOf, hf]
      simp only [List.cons_append, try_loop, pureFunc, hf, hcb,
        eq_self_iff_true, if_true, List.append_eq, hremove]
      rw [ih m post keep (failed ++ [(p, PyErr.runtimeNonTrue)]) hnd' hrest hm]
      simp [herr, List.append_assoc]

/-- When every snapshot mirror fails, the loop (with or without
`stop_after_success`) removes and records all of them. -/
theorem try_loop_pure_all_fail (f : Mirror → Except PyErr Bool)
    (cb sa : Bool) :
    ∀ (snap keep : List Mirror) (failed : List (Mirror × PyErr)),
      (keep ++ snap).Nodup →
      (∀ x ∈ snap, succeedsB f cb x = false) →
      try_loop (pureFunc f) cb sa snap (keep ++ snap) failed () =
        (keep, failed ++ snap.map (fun x => (x, errOf f x)), ()) := by
  intro snap
  induction snap with
  | nil =>
    intro keep failed _ _
    simp [try_loop]
  | cons m rest ih =>
    intro keep failed hnd hfail
    have hm_keep : m ∉ keep := by
      rw [List.nodup_append] at hnd
      intro hmem
      exact hnd.2.2 hmem (List.mem_cons_self m rest)
    have hnd' : (keep ++ rest).Nodup :=
      List.Nodup.sublist
        (List.Sublist.append_left (List.sublist_cons_self m rest) keep) hnd
    have hmfail : succeedsB f cb m = false := hfail m (List.mem_cons_self _ _)
    have hrest : ∀ x ∈ rest, succeedsB f cb x = false := fun x hx =>
      hfail x (List.mem_cons_of_mem _ hx)
    cases hf : f m with
    | error e =>
      have herr : errOf f m = e := by simp [errOf, hf]
      simp only [try_loop, pureFunc, hf,
        list_remove_append_cons keep m rest hm_keep]
      rw [ih keep (failed ++ [(m, e)]) hnd' hrest]
      simp [herr, List.append_assoc]
    | ok b =>
      have hcb : (cb && !b) = true := by
        simp [succeedsB, hf] at hmfail
        revert hmfail
        cases cb <;> cases b <;> simp
      have herr : errOf f m = PyErr.runtimeNonTrue := by simp [errOf, hf]
      simp only [try_loop, pureFunc, hf, hcb, if_pos rfl,
        list_remove_append_cons keep m rest hm_keep]
      rw [ih keep (failed ++ [(m, PyErr.runtimeNonTrue)]) hnd' hrest]
      simp [herr, List.append_assoc]

/-! ### The running-maximum fold -/

theorem vcompare_gt_iff (a b : PyVersion) :
    vcompare a b > 0 ↔ vcompare a b = 1 := by
  rcases isPyCmp_vcompare.range a b with h | h | h <;> rw [h] <;>
    exact ⟨by omega, by omega⟩

theorem foldl_maxStep_ge_acc :
    ∀ (vs : List PyVersion) (acc : PyVersion),
      vcompare acc (vs.foldl maxStep acc) ≤ 0 := by
  intro vs
  induction vs with
  | nil =>
    intro acc
    simp [isPyCmp_vcompare.rfl_zero acc]
  | cons v vs ih =>
    intro acc
    rw [List.foldl_cons]
    have hstep : vcompare acc (maxStep acc v) ≤ 0 := by
      unfold maxStep
      split
      · rename_i h
        have h1 : vcompare v acc = 1 := (vcompare_gt_iff v acc).mp h
        have h2 := isPyCmp_vcompare.gt_flip h1
        omega
      · simp [isPyCmp_vcompare.rfl_zero acc]
    exact isPyCmp_vcompare.le_trans hstep (ih (maxStep acc v))

theorem foldl_maxStep_mem :
    ∀ (vs : List PyVersion) (acc : PyVersion),
      vs.foldl maxStep acc = acc ∨ vs.foldl maxStep acc ∈ vs := by
  intro vs
  induction vs with
  | nil => intro acc; exact Or.inl rfl
  | cons v vs ih =>
    intro acc
    rw [List.foldl_cons]
    rcases ih (maxStep acc v) with h | h
    · rw [h]
      unfold maxStep
      split
      · exact Or.inr (List.mem_cons_self _ _)
      · exact Or.inl rfl
    · exact Or.inr (List.mem_cons_of_mem _ h)

theorem foldl_maxStep_ub :
    ∀ (vs : List PyVersion) (acc w : PyVersion), w ∈ vs →
      vcompare w (vs.foldl maxStep acc) ≤ 0 := by
  intro vs
  induction vs with
  | nil => intro acc w hw; cases hw
  | cons v vs ih =>
    intro acc w hw
    rw [List.foldl_cons]
    rcases List.mem_cons.mp hw with rfl | hw'
    · have hstep : vcompare w (maxStep acc w) ≤ 0 := by
        unfold maxStep
        split
        · simp [isPyCmp_vcompare.rfl_zero w]
        · rename_i h
          rw [vcompare_gt_iff] at h
          rcases isPyCmp_vcompare.range w acc with h' | h' | h' <;> omega
      exact isPyCmp_vcompare.le_trans hstep
        (foldl_maxStep_ge_acc vs (maxStep acc w))
    · exact ih (maxStep acc v) w hw'

theorem foldl_maxStep_stay :
    ∀ (vs : List PyVersion) (acc : PyVersion),
      (∀ w ∈ vs, vcompare w acc ≠ 1) → vs.foldl maxStep acc = acc := by
  intro vs
  induction vs with
  | nil => intro acc _; rfl
  | cons v vs ih =>
    intro acc h
    rw [List.foldl_cons]
    have hv : maxStep acc v = acc := by
      unfold maxStep
      rw [if_neg]
      intro hgt
      exact h v (List.mem_cons_self _ _) ((vcompare_gt_iff v acc).mp hgt)
    rw [hv]
    exact ih acc (fun w hw => h w (List.mem_cons_of_mem _ hw))

theorem determine_fold_eq (separator : String) :
    ∀ (cands : List (Option String)) (acc : PyVersion),
      cands.foldl
        (fun latest c =>
          match c with
          | none => latest
          | some s => maxStep latest (parseVersion s separator)) acc =
      (cands.filterMap
        (fun c => c.map (fun s => parseVersion s separator))).foldl
        maxStep acc := by
  intro cands
  induction cands with
  | nil => intro acc; rfl
  | cons c rest ih =>
    intro acc
    cases c with
    | none =>
      simp only [List.foldl_cons, List.filterMap_cons, Option.map_none']
      exact ih acc
    | some s =>
      simp only [List.foldl_cons, List.filterMap_cons, Option.map_some']
      exact ih _

theorem try_for_all_eq {σ : Type} (func : Mirror → σ → σ × Except PyErr Bool)
    (cb sa : Bool) (mirrors : List Mirror) (s : σ) :
    try_for_all_mirrors func cb sa mirrors s =
      ((try_loop func cb sa mirrors mirrors [] s).2.2,
        if (try_loop func cb sa mirrors mirrors [] s).1 = [] then
          Except.error (try_loop func cb sa mirrors mirrors [] s).2.1
        else Except.ok (try_loop func cb sa mirrors mirrors [] s).1) := rfl

/-! ### Characterization of the latest-version filter -/

theorem ensure_latest_characterization (m0 : Mirror) (rest : List Mirror)
    (hnd : (m0 :: rest).Nodup) :
    ensure_latest_version (m0 :: rest) =
      some (Except.ok ((m0 :: rest).filter
        (fun m => veqb m.version (pymax m0.version (rest.map Mirror.version))))) ∧
    (m0 :: rest).filter
        (fun m => veqb m.version (pymax m0.version (rest.map Mirror.version)))
      ≠ [] := by
  set latest := pymax m0.version (rest.map Mirror.version) with hlatest
  have hsucc :
      succeedsB (fun mm => Except.ok (veqb mm.version latest)) true =
        fun m => veqb m.version latest := by
    funext mm
    simp [succeedsB]
  have hmem : ∃ mir ∈ m0 :: rest, mir.version = latest := by
    rcases foldl_maxStep_mem (rest.map Mirror.version) m0.version with h | h
    · exact ⟨m0, List.mem_cons_self _ _, h.symm⟩
    · rcases List.mem_map.mp h with ⟨mir, hmir, hv⟩
      exact ⟨mir, List.mem_cons_of_mem _ hmir, hv⟩
  have hfilter_ne :
      (m0 :: rest).filter (fun m => veqb m.version latest) ≠ [] := by
    rcases hmem with ⟨mir, hmir, hv⟩
    have hveq : veqb mir.version latest = true := by
      rw [hv]
      simp [veqb, isPyCmp_vcompare.rfl_zero latest]
    have : mir ∈ (m0 :: rest).filter (fun m => veqb m.version latest) :=
      List.mem_filter.mpr ⟨hmir, hveq⟩
    intro hnil
    rw [hnil] at this
    cases this
  refine ⟨?_, hfilter_ne⟩
  have hloop := try_loop_pure_no_stop
    (fun mm => Except.ok (veqb mm.version latest)) true (m0 :: rest) [] []
    (by simpa using hnd)
  simp only [List.nil_append] at hloop
  have hev : ensure_latest_version (m0 :: rest) =
      some (try_for_all_mirrors
        (pureFunc fun mm => Except.ok (veqb mm.version latest)) true false
        (m0 :: rest) ()).2 := rfl
  rw [hev, try_for_all_eq, hloop]
  simp [hsucc, hfilter_ne]

/-! ### Claims about Version ordering and rendering -/

theorem char_lt_iff (a b : Char) : a < b ↔ a.toNat < b.toNat := Iff.rfl

/-- `pyStrCmp` returning `-1` is exactly the lexicographic order on
character lists (`List.Lex (· < ·)`, Python's string `<`). -/
theorem pyStrCmp_neg_iff_lt :
    ∀ (a b : List Char), pyStrCmp a b = -1 ↔ a < b := by
  intro a
  induction a with
  | nil =>
    intro b
    cases b with
    | nil =>
      constructor
      · intro h; simp [pyStrCmp] at h
      · intro h; cases h
    | cons y ys =>
      constructor
      · intro _; exact List.Lex.nil
      · intro _; rfl
  | cons x xs ih =>
    intro b
    cases b with
    | nil =>
      constructor
      · intro h; simp [pyStrCmp] at h
      · intro h; cases h
    | cons y ys =>
      simp only [pyStrCmp]
      by_cases h1 : x.toNat < y.toNat
      · rw [if_pos h1]
        constructor
        · intro _; exact List.Lex.rel ((char_lt_iff x y).mpr h1)
        · intro _; rfl
      · rw [if_neg h1]
        by_cases h2 : y.toNat < x.toNat
        · rw [if_pos h2]
          constructor
          · intro hc; omega
          · intro hlt
            cases hlt with
            | rel hxy => exact absurd ((char_lt_iff x y).mp hxy) h1
            | cons h => omega
        · have hxy : x = y := char_toNat_inj (by omega)
          subst hxy
          rw [if_neg h2, ih ys]
          constructor
          · intro h; exact List.Lex.cons h
          · intro hlt
            cases hlt with
            | rel hxx => exact absurd ((char_lt_iff x x).mp hxx) (by omega)
            | cons h => exact h

theorem cmp_tokens_str_lt (s t : String) :
    cmp_tokens (Token.str s) (Token.str t) = -1 ↔ s < t := by
  rw [show cmp_tokens (Token.str s) (Token.str t) =
      pyStrCmp s.data t.data from rfl,
    pyStrCmp_neg_iff_lt]
  exact String.lt_iff_toList_lt.symm

theorem cmp_tokens_str_gt (s t : String) :
    cmp_tokens (Token.str s) (Token.str t) = 1 ↔ t < s := by
  have hflip : cmp_tokens (Token.str t) (Token.str s) =
      - cmp_tokens (Token.str s) (Token.str t) :=
    isPyCmp_cmp_tokens.flip _ _
  rw [← cmp_tokens_str_lt t s]
  omega

/-- C5: version comparison is component-by-component and token-by-token:
integer tokens compare numerically (leading zeros insignificant, so
`Version("1.02.0") == Version("1.2.0")`), string tokens compare
lexicographically (Python string `<`), an integer token orders strictly
before a string token when the types differ — in both directions — and a
strict prefix, at the token level and at the component level, compares as
smaller (`Version("1.2") < Version("1.2.1")`). -/
theorem c5_token_and_prefix_ordering :
    (∀ a b : Nat,
      (a < b → cmp_tokens (Token.int a) (Token.int b) = -1) ∧
      (a = b → cmp_tokens (Token.int a) (Token.int b) = 0) ∧
      (b < a → cmp_tokens (Token.int a) (Token.int b) = 1)) ∧
    vcompare (parseVersion "1.02.0" ".") (parseVersion "1.2.0" ".") = 0 ∧
    (∀ s t : String,
      (cmp_tokens (Token.str s) (Token.str t) = -1 ↔ s < t) ∧
      (cmp_tokens (Token.str s) (Token.str t) = 1 ↔ t < s)) ∧
    (∀ (n : Nat) (s : String),
      cmp_tokens (Token.int n) (Token.str s) = -1 ∧
      cmp_tokens (Token.str s) (Token.int n) = 1) ∧
    (∀ ts us : List Token, us ≠ [] → compare_parsed ts (ts ++ us) = -1) ∧
    (∀ cs ds : PyVersion, ds ≠ [] → vcompare cs (cs ++ ds) = -1) ∧
    vcompare (parseVersion "1.2" ".") (parseVersion "1.2.1" ".") = -1 := by
  refine ⟨?_, by decide, ?_, ?_, ?_, ?_, by decide⟩
  · intro a b
    refine ⟨?_, ?_, ?_⟩ <;> intro h <;> simp [cmp_tokens, pyNatCmp] <;> omega
  · intro s t
    exact ⟨cmp_tokens_str_lt s t, cmp_tokens_str_gt s t⟩
  · intro n s
    exact ⟨rfl, rfl⟩
  · intro ts us h
    exact pySeqCmp_self_append isPyCmp_cmp_tokens ts us h
  · intro cs ds h
    exact pySeqCmp_self_append isPyCmp_compare_parsed cs ds h

/-- C5 witness: the quantified parts applied at concrete tokens, strings
and token lists, discharging each hypothesis by evaluation. -/
theorem c5_token_and_prefix_ordering_witness :
    cmp_tokens (Token.int 1) (Token.int 2) = -1 ∧
    (("a" : String) < "ab") ∧
    compare_parsed [Token.int 1] ([Token.int 1] ++ [Token.str "a"]) = -1 ∧
    vcompare [[Token.int 1]] ([[Token.int 1]] ++ [[Token.int 0]]) = -1 :=
  ⟨(c5_token_and_prefix_ordering.1 1 2).1 (by decide),
    ((c5_token_and_prefix_ordering.2.2.1 "a" "ab").1).mp (by decide),
    c5_token_and_prefix_ordering.2.2.2.2.1 [Token.int 1] [Token.str "a"]
      (by decide),
    c5_token_and_prefix_ordering.2.2.2.2.2.1 [[Token.int 1]] [[Token.int 0]]
      (by decide)⟩

/-- C6: for `Version` values built from valid (non-empty) version strings
with the same separator, exactly one of `a < b` (compare < 0), `a == b`
(compare = 0), `a > b` (compare > 0) holds, and `<` is transitive — the
ordering induced by `Version._compare` is a total preorder. -/
theorem c6_total_preorder (a b c separator : String)
    (_ha : mkVersion a separator ≠ none) (_hb : mkVersion b separator ≠ none)
    (_hc : mkVersion c separator ≠ none) :
    ((vcompare (parseVersion a separator) (parseVersion b separator) < 0 ∨
      vcompare (parseVersion a separator) (parseVersion b separator) = 0 ∨
      vcompare (parseVersion a separator) (parseVersion b separator) > 0) ∧
     ¬(vcompare (parseVersion a separator) (parseVersion b separator) < 0 ∧
       vcompare (parseVersion a separator) (parseVersion b separator) = 0) ∧
     ¬(vcompare (parseVersion a separator) (parseVersion b separator) = 0 ∧
       vcompare (parseVersion a separator) (parseVersion b separator) > 0) ∧
     ¬(vcompare (parseVersion a separator) (parseVersion b separator) < 0 ∧
       vcompare (parseVersion a separator) (parseVersion b separator) > 0)) ∧
    (vcompare (parseVersion a separator) (parseVersion b separator) < 0 →
     vcompare (parseVersion b separator) (parseVersion c separator) < 0 →
     vcompare (parseVersion a separator) (parseVersion c separator) < 0) := by
  refine ⟨⟨by omega, by omega, by omega, by omega⟩, ?_⟩
  intro h1 h2
  have r1 := isPyCmp_vcompare.range (parseVersion a separator)
    (parseVersion b separator)
  have r2 := isPyCmp_vcompare.range (parseVersion b separator)
    (parseVersion c separator)
  have h1' : vcompare (parseVersion a separator)
      (parseVersion b separator) = -1 := by omega
  have h2' : vcompare (parseVersion b separator)
      (parseVersion c separator) = -1 := by omega
  have h3 := isPyCmp_vcompare.trans _ _ _ h1' h2'
  omega

/-- C6 witness: transitivity applied at 1.2 < 1.10 < 2.0 (separator "."),
with every hypothesis evaluated. -/
theorem c6_total_preorder_witness :
    vcompare (parseVersion "1.2" ".") (parseVersion "2.0" ".") < 0 :=
  (c6_total_preorder "1.2" "1.10" "2.0" "." (by decide) (by decide)
    (by decide)).2 (by decide) (by decide)

/-- C7 (code bug): `Version.__str__` iterates the characters of the raw
component strings (`self.components`), so its `isinstance(tok, int)`
zero-pad branch never fires: rendering `Version("9", zero_pad=3)` yields
`"9"`, not the `"009"` promised by the `zero_pad` docstring and the spec
(`versionStrSpec`, modelled from them, does yield `"009"`); in general the
zero-pad width has no effect whatsoever on `__str__`'s output. -/
theorem c7_zero_pad_dead_in_render :
    versionStr "9" "." 3 = "9" ∧
    versionStr "9" "." 3 ≠ "009" ∧
    versionStrSpec "9" "." 3 = "009" ∧
    versionStr "2024.1.1" "." 2 = "2024.1.1" ∧
    versionStrSpec "2024.1.1" "." 2 = "2024.01.01" ∧
    (∀ (vs sep : String) (zp zp' : Nat),
      versionStr vs sep zp = versionStr vs sep zp') := by
  refine ⟨by decide, by decide, by decide, by decide, by decide, ?_⟩
  intro vs sep zp zp'
  rfl

/-- C2: on a non-empty duplicate-free mirror list where every mirror
reports a version, `_ensure_latest_version` keeps exactly the mirrors whose
version compares equal — under `Version.__eq__`, i.e. `_compare == 0`, not
string identity — to the maximum version observed across the list (every
observed version compares ≤ the kept one). -/
theorem c2_latest_version_filter (m0 : Mirror) (rest : List Mirror)
    (hnd : (m0 :: rest).Nodup) :
    ensure_latest_version (m0 :: rest) =
      some (Except.ok ((m0 :: rest).filter
        (fun m => veqb m.version
          (pymax m0.version (rest.map Mirror.version))))) ∧
    (∀ x y : PyVersion, veqb x y = true ↔ vcompare x y = 0) ∧
    (∀ w ∈ (m0 :: rest).map Mirror.version,
      vcompare w (pymax m0.version (rest.map Mirror.version)) ≤ 0) := by
  refine ⟨(ensure_latest_characterization m0 rest hnd).1, ?_, ?_⟩
  · intro x y
    simp [veqb]
  · intro w hw
    rcases List.mem_cons.mp hw with heq | hw'
    · rw [heq]
      exact foldl_maxStep_ge_acc (rest.map Mirror.version) m0.version
    · exact foldl_maxStep_ub (rest.map Mirror.version) m0.version w hw'

/-- C2 witness: three mirrors reporting versions 1.0, 1.2, 1.2 — exactly
the two reporting 1.2 remain. -/
theorem c2_latest_version_filter_witness :
    ensure_latest_version [exMirrorA, exMirrorB, exMirrorC] =
      some (Except.ok [exMirrorB, exMirrorC]) := by
  rw [(c2_latest_version_filter exMirrorA [exMirrorB, exMirrorC]
    (by decide)).1]
  have hfil : ([exMirrorA, exMirrorB, exMirrorC].filter
      (fun m => veqb m.version (pymax exMirrorA.version
        (List.map Mirror.version [exMirrorB, exMirrorC])))) =
      [exMirrorB, exMirrorC] := by decide
  rw [hfil]

/-- C9: on a non-empty duplicate-free mirror list where every mirror
reports a version, the latest-version filter always retains at least one
mirror (one attaining the maximum version passes the equality check), so
`try_for_all_mirrors` invoked from `_ensure_latest_version` never reaches
its `NoMirrorsError` branch. -/
theorem c9_latest_filter_keeps_a_mirror (m0 : Mirror) (rest : List Mirror)
    (hnd : (m0 :: rest).Nodup) :
    ∃ live, ensure_latest_version (m0 :: rest) = some (Except.ok live) ∧
      live ≠ [] := by
  obtain ⟨h1, h2⟩ := ensure_latest_characterization m0 rest hnd
  exact ⟨_, h1, h2⟩

/-- C9 witness: the guarantee applied to a concrete singleton list. -/
theorem c9_latest_filter_keeps_a_mirror_witness :
    ∃ live, ensure_latest_version [exMirrorA] = some (Except.ok live) ∧
      live ≠ [] :=
  c9_latest_filter_keeps_a_mirror exMirrorA [] (by decide)

/-! ### C8: the version-discovery sentinel -/

theorem veqb_iff (x y : PyVersion) : veqb x y = true ↔ vcompare x y = 0 := by
  simp [veqb]

theorem veqb_false_iff (x y : PyVersion) :
    veqb x y = false ↔ vcompare x y ≠ 0 := by
  rw [← Bool.not_eq_true, veqb_iff]

/-- C8 counterexample: the sentinel `Version("0")` is itself a parseable
version and compares equal (not strictly greater) to a discovered version
"0"; on the candidate set {"0"} — one URL matching the file pattern whose
version extraction yields "0" — `_determine_version` raises (`none`)
instead of returning the maximum version `Version("0")`. -/
theorem c8_sentinel_counterexample :
    determine_version [some "0"] "." = none ∧
    mkVersion "0" "." = some (parseVersion "0" ".") ∧
    vcompare (parseVersion "0" ".") (parseVersion "0" ".") = 0 := by
  refine ⟨by decide, by decide, by decide⟩

/-- C8 (amended): the sentinel `Version("0")` compares less-or-equal (not
always strictly less) to every version whose first component tokenizes
non-empty, and is never returned: a `some` result is a maximum of the
extracted versions and compares strictly greater than the sentinel;
`_determine_version` succeeds exactly when some extracted version compares
strictly greater than `Version("0")` — in particular it also fails when
versions were extracted but the maximum ties the sentinel. -/
theorem c8_determine_version_amended (cands : List (Option String))
    (separator : String) :
    (∀ v, determine_version cands separator = some v →
      (v ∈ cands.filterMap
          (fun c => c.map (fun s => parseVersion s separator)) ∧
        (∀ w ∈ cands.filterMap
            (fun c => c.map (fun s => parseVersion s separator)),
          vcompare w v ≤ 0) ∧
        vcompare (parseVersion "0" ".") v = -1)) ∧
    ((∃ w ∈ cands.filterMap
        (fun c => c.map (fun s => parseVersion s separator)),
        vcompare (parseVersion "0" ".") w = -1) →
      ∃ v, determine_version cands separator = some v) ∧
    ((∀ w ∈ cands.filterMap
        (fun c => c.map (fun s => parseVersion s separator)),
        vcompare (parseVersion "0" ".") w ≠ -1) →
      determine_version cands separator = none) ∧
    (∀ (ts : List Token) (cs : List (List Token)), ts ≠ [] →
      vcompare (parseVersion "0" ".") (ts :: cs) ≤ 0) := by
  have hdv : determine_version cands separator =
      (if veqb ((cands.filterMap
          (fun c => c.map (fun s => parseVersion s separator))).foldl
            maxStep (parseVersion "0" ".")) (parseVersion "0" ".")
        then none
        else some ((cands.filterMap
          (fun c => c.map (fun s => parseVersion s separator))).foldl
            maxStep (parseVersion "0" "."))) := by
    simp only [determine_version]
    rw [determine_fold_eq]
  set zero := parseVersion "0" "." with hzdef
  set parsed := cands.filterMap
    (fun c => c.map (fun s => parseVersion s separator)) with hpdef
  set L := parsed.foldl maxStep zero with hLdef
  have hge : vcompare zero L ≤ 0 := foldl_maxStep_ge_acc parsed zero
  have hmem : L = zero ∨ L ∈ parsed := foldl_maxStep_mem parsed zero
  have hub : ∀ w ∈ parsed, vcompare w L ≤ 0 := fun w hw =>
    foldl_maxStep_ub parsed zero w hw
  refine ⟨?_, ?_, ?_, ?_⟩
  · intro v hv
    rw [hdv] at hv
    by_cases hL : veqb L zero
    · rw [if_pos hL] at hv
      cases hv
    · rw [if_neg hL] at hv
      have hvL : v = L := by
        cases hv
        rfl
      subst hvL
      have hne : vcompare L zero ≠ 0 :=
        (veqb_false_iff L zero).mp (Bool.not_eq_true _ ▸ hL)
      refine ⟨?_, hub, ?_⟩
      · rcases hmem with h | h
        · rw [h] at hne
          exact absurd (isPyCmp_vcompare.rfl_zero zero) hne
        · exact h
      · have hflip := isPyCmp_vcompare.flip L zero
        rcases isPyCmp_vcompare.range zero L with h | h | h
        · exact h
        · omega
        · omega
  · rintro ⟨w, hw, hzw⟩
    have hzL : vcompare zero L = -1 :=
      isPyCmp_vcompare.lt_of_lt_of_le hzw (hub w hw)
    have hL1 : vcompare L zero = 1 := isPyCmp_vcompare.lt_flip hzL
    have hfalse : veqb L zero = false := by
      rw [veqb_false_iff]
      omega
    exact ⟨L, by rw [hdv, hfalse]; simp⟩
  · intro hall
    have hstay : L = zero := by
      rw [hLdef]
      apply foldl_maxStep_stay
      intro w hw h1
      have hflip := isPyCmp_vcompare.flip zero w
      exact hall w hw (by omega)
    have : veqb L zero = true := by
      rw [veqb_iff, hstay]
      exact isPyCmp_vcompare.rfl_zero zero
    rw [hdv, this]
    simp
  · intro ts cs hts
    cases ts with
    | nil => exact absurd rfl hts
    | cons t ts' =>
      have hz : zero = [[Token.int 0]] := by rw [hzdef]; decide
      rw [hz]
      have hnil : ∀ (l : List Token), pySeqCmp cmp_tokens [] l ≤ 0 := by
        intro l
        cases l <;> simp [pySeqCmp]
      have hc0 : cmp_tokens (Token.int 0) t ≤ 0 := by
        cases t with
        | int n =>
          simp only [cmp_tokens, pyNatCmp]
          split <;> split <;> omega
        | str s => simp [cmp_tokens]
      have hinner : compare_parsed [Token.int 0] (t :: ts') ≤ 0 := by
        rw [show compare_parsed [Token.int 0] (t :: ts') =
            (if cmp_tokens (Token.int 0) t = 0
              then pySeqCmp cmp_tokens [] ts'
              else cmp_tokens (Token.int 0) t) from rfl]
        split
        · exact hnil ts'
        · exact hc0
      rw [show vcompare [[Token.int 0]] ((t :: ts') :: cs) =
          (if compare_parsed [Token.int 0] (t :: ts') = 0
            then pySeqCmp compare_parsed [] cs
            else compare_parsed [Token.int 0] (t :: ts')) from rfl]
      split
      · cases cs <;> simp [pySeqCmp]
      · exact hinner

/-- C8 witness: discovery succeeds on {"1.0", no-match, "0.5"}, and the
sentinel bound applied at a concrete non-empty first component. -/
theorem c8_determine_version_amended_witness :
    (∃ v, determine_version [some "1.0", none, some "0.5"] "." = some v) ∧
    vcompare (parseVersion "0" ".") [[Token.int 1]] ≤ 0 :=
  ⟨(c8_determine_version_amended [some "1.0", none, some "0.5"] ".").2.1
      ⟨parseVersion "1.0" ".", by decide, by decide⟩,
    (c8_determine_version_amended [some "1.0", none, some "0.5"] ".").2.2.2
      [Token.int 1] [] (by decide)⟩

/-! ### C1/C3/C4: the manager's download fail-over -/

/-- C1 (code bug): `attempt_download` can never succeed, because
`_download_and_checksum` calls `mirror.checksum_file`, which no mirror
class defines (`GenericMirror` has only `_checksum_file`); the
`AttributeError` is swallowed by `except Exception` and every mirror fails
its integrity check. On the spec's {slow, fast, fastest} scenario sorted
fastest-first, with `fastest` failing its checksum and the other two
passing: the code deletes every downloaded file, removes all three mirrors
and raises `NoMirrorsError`, whereas under the intended checksum call
(`download_and_checksum_intended`) iteration stops at `fast`, whose
verified file remains on disk, `fastest` alone is removed and `slow` is
left untouched. -/
theorem c1_attempt_download_never_succeeds :
    attempt_download [exFastest, exFast, exSlow] none =
      (none, Except.error
        [(exFastest, PyErr.integrityCheck "Integrity check failed!"),
          (exFast, PyErr.integrityCheck "Integrity check failed!"),
          (exSlow, PyErr.integrityCheck "Integrity check failed!")]) ∧
    attempt_download_intended [exFastest, exFast, exSlow] none =
      (some exFast.content, Except.ok [exFast, exSlow]) ∧
    exSlow.speed < exFast.speed ∧ exFast.speed < exFastest.speed ∧
    exFastest.checksumOk = false ∧ exFast.checksumOk = true ∧
    exSlow.checksumOk = true := by
  decide

/-- C3: whenever a download fails its checksum or signature verification,
the file is deleted before the `IntegrityCheckError` surfaces: every error
outcome of `GenericMirror.download_and_verify` and of the manager's
`_download_and_checksum` (actual and intended reading) leaves nothing at
the install path, and a success leaves exactly the verified content. -/
theorem c3_no_unverified_file_left (m : Mirror) (d : Option Nat) :
    (∀ e, (download_and_verify m d).2 = Except.error e →
      (download_and_verify m d).1 = none) ∧
    (∀ b, (download_and_verify m d).2 = Except.ok b →
      (download_and_verify m d).1 = some m.content ∧
        m.checksumOk = true ∧ (m.hasSignature = true → m.sigOk = true)) ∧
    (∀ e, (download_and_checksum m d).2 = Except.error e →
      (download_and_checksum m d).1 = none) ∧
    (∀ e, (download_and_checksum_intended m d).2 = Except.error e →
      (download_and_checksum_intended m d).1 = none) ∧
    (∀ b, (download_and_checksum_intended m d).2 = Except.ok b →
      (download_and_checksum_intended m d).1 = some m.content ∧
        m.checksumOk = true) := by
  refine ⟨?_, ?_, ?_, ?_, ?_⟩
  · intro e he
    by_cases h1 : m.hasSignature && !m.sigOk
    · simp [download_and_verify, h1]
    · by_cases h2 : (!m.checksumOk : Bool)
      · simp [download_and_verify, h1, h2]
      · simp [download_and_verify, h1, h2] at he
  · intro b hb
    by_cases h1 : m.hasSignature && !m.sigOk
    · simp [download_and_verify, h1] at hb
    · by_cases h2 : (!m.checksumOk : Bool)
      · simp [download_and_verify, h1, h2] at hb
      · have hcs : m.checksumOk = true := by
          revert h2; cases m.checksumOk <;> simp
        have hsig : m.hasSignature = true → m.sigOk = true := by
          intro hh
          revert h1
          rw [hh]
          cases m.sigOk <;> simp
        exact ⟨by simp [download_and_verify, h1, h2], hcs, hsig⟩
  · intro e he
    rfl
  · intro e he
    by_cases h : m.checksumOk
    · simp [download_and_checksum_intended, h] at he
    · simp [download_and_checksum_intended, h]
  · intro b hb
    by_cases h : m.checksumOk
    · exact ⟨by simp [download_and_checksum_intended, h], h⟩
    · simp [download_and_checksum_intended, h] at hb

/-- C3 witness: a failing checksum leaves nothing on disk; a passing mirror
leaves its verified content. -/
theorem c3_no_unverified_file_left_witness :
    (download_and_verify exFastest none).1 = none ∧
    (download_and_verify exFast none).1 = some exFast.content ∧
    (download_and_checksum exFast none).1 = none :=
  ⟨(c3_no_unverified_file_left exFastest none).1
      (PyErr.integrityCheck "Integrity check failed! (Checksum)") (by decide),
    ((c3_no_unverified_file_left exFast none).2.1 true (by decide)).1,
    (c3_no_unverified_file_left exFast none).2.2.1
      (PyErr.integrityCheck "Integrity check failed!") (by decide)⟩

/-- C4: `try_for_all_mirrors` iterates a snapshot; a raising call (or a
falsy result under `check_bool_output`) removes that mirror from the live
list and records `(mirror, error)`; with `stop_after_success` the loop
stops right after the first success, leaving later mirrors untouched and
unremoved; `NoMirrorsError` — carrying exactly the recorded pairs — is
raised if and only if the live list has become empty; in particular when
every mirror fails initialization the constructed error enumerates every
mirror with its own error. -/
theorem c4_try_for_all_mirrors_contract (f : Mirror → Except PyErr Bool)
    (cb : Bool) :
    (∀ mirrors : List Mirror, mirrors.Nodup →
      try_for_all_mirrors (pureFunc f) cb false mirrors () =
        ((), if mirrors.filter (succeedsB f cb) = [] then
          Except.error ((mirrors.filter
            (fun m => !succeedsB f cb m)).map (fun m => (m, errOf f m)))
          else Except.ok (mirrors.filter (succeedsB f cb)))) ∧
    (∀ (pre : List Mirror) (m : Mirror) (post : List Mirror),
      (pre ++ m :: post).Nodup →
      (∀ x ∈ pre, succeedsB f cb x = false) →
      succeedsB f cb m = true →
      try_loop (pureFunc f) cb true (pre ++ m :: post) (pre ++ m :: post)
          [] () =
        (m :: post, pre.map (fun x => (x, errOf f x)), ()) ∧
      try_for_all_mirrors (pureFunc f) cb true (pre ++ m :: post) () =
        ((), Except.ok (m :: post))) ∧
    (∀ (sa : Bool) (mirrors : List Mirror) (fs : List (Mirror × PyErr)),
      (try_for_all_mirrors (pureFunc f) cb sa mirrors ()).2 =
          Except.error fs ↔
        (try_loop (pureFunc f) cb sa mirrors mirrors [] ()).1 = [] ∧
        fs = (try_loop (pureFunc f) cb sa mirrors mirrors [] ()).2.1) ∧
    (∀ (init : Mirror → Except PyErr Unit) (err : Mirror → PyErr)
        (mirrors : List Mirror), mirrors.Nodup →
      (∀ x ∈ mirrors, init x = Except.error (err x)) →
      initialize_all_mirrors init mirrors =
        ((), Except.error (mirrors.map (fun x => (x, err x))))) := by
  refine ⟨?_, ?_, ?_, ?_⟩
  · intro mirrors hnd
    rw [try_for_all_eq]
    have h := try_loop_pure_no_stop f cb mirrors [] [] (by simpa using hnd)
    simp only [List.nil_append] at h
    rw [h]
  · intro pre m post hnd hpre hm
    have h := try_loop_pure_stop f cb pre m post [] [] (by simpa using hnd)
      hpre hm
    simp only [List.nil_append] at h
    refine ⟨h, ?_⟩
    rw [try_for_all_eq, h]
    rfl
  · intro sa mirrors fs
    rw [try_for_all_eq]
    dsimp only
    by_cases hl : (try_loop (pureFunc f) cb sa mirrors mirrors [] ()).1 = []
    · rw [if_pos hl]
      simp [hl, eq_comm]
    · rw [if_neg hl]
      simp [hl]
  · intro init err mirrors hnd hfail
    unfold initialize_all_mirrors
    rw [try_for_all_eq]
    have hsf : ∀ x ∈ mirrors,
        succeedsB (fun mm => (init mm).map (fun _ => false)) false x =
          false := by
      intro x hx
      simp [succeedsB, hfail x hx, Except.map]
    have h := try_loop_pure_all_fail
      (fun mm => (init mm).map (fun _ => false)) false false mirrors [] []
      (by simpa using hnd) hsf
    simp only [List.nil_append] at h
    rw [h]
    dsimp only
    rw [if_pos rfl]
    have hmap : mirrors.map
        (fun x => (x, errOf (fun mm => (init mm).map (fun _ => false)) x)) =
        mirrors.map (fun x => (x, err x)) := by
      apply List.map_congr_left
      intro x hx
      simp [errOf, hfail x hx, Except.map]
    rw [hmap]

/-- C4 witness: two all-failing mirrors produce a `NoMirrorsError`
enumerating both, and with stop-after-success the first passing mirror ends
the pass, leaving the slower one untouched. -/
theorem c4_try_for_all_mirrors_contract_witness :
    initialize_all_mirrors (fun _ => Except.error (PyErr.other "down"))
        [exMirrorA, exMirrorB] =
      ((), Except.error [(exMirrorA, PyErr.other "down"),
        (exMirrorB, PyErr.other "down")]) ∧
    try_for_all_mirrors (pureFunc (fun m => Except.ok m.checksumOk)) true
        true ([exFastest] ++ exFast :: [exSlow]) () =
      ((), Except.ok (exFast :: [exSlow])) :=
  ⟨(c4_try_for_all_mirrors_contract (fun _ => Except.ok true) true).2.2.2
      (fun _ => Except.error (PyErr.other "down")) (fun _ => PyErr.other "down")
      [exMirrorA, exMirrorB] (by decide) (by intro x hx; rfl),
    ((c4_try_for_all_mirrors_contract (fun m => Except.ok m.checksumOk)
        true).2.1 [exFastest] exFast [exSlow] (by decide) (by decide)
      (by decide)).2⟩

theorem with_suffix_eq (name new_suffix : String) :
    with_suffix name new_suffix =
      match lastDotIdx name.data with
      | some i =>
        if 0 < i ∧ i < name.data.length - 1 then
          String.mk (name.data.take i) ++ new_suffix
        else name ++ new_suffix
      | none => name ++ new_suffix := rfl

/-! ### C10: the atomic download helper -/

/-- C10: `download_file` streams into the sibling `.part` file (the
destination name with its extension replaced by `.part`) and renames it
onto the destination only on completion; on a transport error or keyboard
interrupt the partial file is deleted, the destination is untouched, and
the exception is re-raised — the destination never receives incomplete
data. -/
theorem c10_download_file_atomic (received : List Nat) (complete : Bool)
    (d : Disk) :
    (∀ e, (download_file received complete d).2 = Except.error e →
      (download_file received complete d).1.dest = d.dest ∧
      (download_file received complete d).1.part = none) ∧
    ((download_file received complete d).2 = Except.ok () →
      complete = true ∧
      (download_file received complete d).1.dest = some received ∧
      (download_file received complete d).1.part = none) ∧
    (∀ name : String, ∃ stem : String,
      with_suffix name ".part" = stem ++ ".part") := by
  refine ⟨?_, ?_, ?_⟩
  · intro e he
    cases complete with
    | true => simp [download_file] at he
    | false => exact ⟨rfl, rfl⟩
  · intro hok
    cases complete with
    | true => exact ⟨rfl, rfl, rfl⟩
    | false => simp [download_file] at hok
  · intro name
    rw [with_suffix_eq]
    cases lastDotIdx name.data with
    | none => exact ⟨name, rfl⟩
    | some i =>
      dsimp only
      by_cases h : 0 < i ∧ i < name.data.length - 1
      · rw [if_pos h]
        exact ⟨String.mk (name.data.take i), rfl⟩
      · rw [if_neg h]
        exact ⟨name, rfl⟩

/-- C10 witness: a failed transfer removes the partial file and keeps the
old destination; the part-file name ends in ".part". -/
theorem c10_download_file_atomic_witness :
    ((download_file [5, 6] false ⟨some [1], none⟩).1.dest = some [1] ∧
      (download_file [5, 6] false ⟨some [1], none⟩).1.part = none) ∧
    (∃ stem : String, with_suffix "archlinux.iso" ".part" =
      stem ++ ".part") :=
  ⟨(c10_download_file_atomic [5, 6] false ⟨some [1], none⟩).1
      (PyErr.other "requests.exceptions.RequestException") (by decide),
    (c10_download_file_atomic [] true ⟨none, none⟩).2.2 "archlinux.iso"⟩

end SISOU
